import Mathlib

/-!
Verification of the todo CRUD service (in-memory store, operation layer,
HTTP handlers) against its specification.

Shallow embedding notes:
* Go maps (`map[int]*Todo`) are modelled as association lists whose keys are
  kept unique by construction: assignment `m[k] = v` is `insertKey`, which
  removes any previous binding of `k` and prepends the new one; `delete(m, k)`
  is `eraseKey`; lookup `m[k]` is `findKey`.  Go map iteration order is
  unspecified, and no claim depends on the order produced by `GetAll`.
* Go's `int` is 64-bit here, and its additions wrap: the allocator bumps in
  `Create` (`r.nextID++` and `r.nextID = todo.ID + 1`) are modelled with
  `wrap64`, Go's two's-complement wraparound at ±2^63.  Values themselves
  live in `Int`; comparisons and map keys involve no arithmetic and need no
  wrapping.  `strconv.Atoi`'s int64 range error, part of its observable
  contract, is modelled explicitly via `int64Ok`.
* Errors are value-level: the package-level error variables of
  `internal/domain` and `errors.New` calls become constructors of `GoError`;
  Go's `errors.Is` on these sentinel values is constructor equality.
* Methods that mutate the receiver and return `error` become functions
  `RepoState → ... → Except GoError (new state, result)`; an `error` result
  means the state is unchanged (the Go code performs no mutation on any
  error path, which the embedding makes structural).
-/

/-- Todo mirrors the `Todo` struct of `internal/domain/domain.go`. -/
structure Todo where
  ID : Int
  Title : String
  Description : String
  Completed : Bool
deriving DecidableEq, Repr

/-- GoError models the error values that flow through the program: the three
package-level sentinels of `internal/domain` plus `errors.New` results.
Distinct constructors are distinct errors even when the text coincides,
matching Go's pointer identity for `errors.Is`. -/
inductive GoError where
  | errTodoNotFound
  | errTodoAlreadyExists
  | errInvalidTodoData
  | errNew (msg : String)
deriving DecidableEq, Repr

/-- message is Go's `err.Error()`. -/
def GoError.message : GoError → String
  | .errTodoNotFound => "todo not found"
  | .errTodoAlreadyExists => "todo with this ID already exists"
  | .errInvalidTodoData => "invalid todo data"
  | .errNew m => m

/-- Validate mirrors `(*Todo).Validate`: rejects an empty title with
`errors.New("title cannot be empty")`. `none` means nil error. -/
def Todo.Validate (t : Todo) : Option GoError :=
  if t.Title = "" then some (.errNew "title cannot be empty") else none

/-- findKey is Go map lookup `m[k]`. -/
def findKey : List (Int × Todo) → Int → Option Todo
  | [], _ => none
  | p :: rest, k => if p.1 = k then some p.2 else findKey rest k

/-- eraseKey is Go's `delete(m, k)`. -/
def eraseKey : List (Int × Todo) → Int → List (Int × Todo)
  | [], _ => []
  | p :: rest, k => if p.1 = k then eraseKey rest k else p :: eraseKey rest k

/-- insertKey is Go map assignment `m[k] = v`: the new binding replaces any
previous binding of `k`. -/
def insertKey (m : List (Int × Todo)) (k : Int) (v : Todo) : List (Int × Todo) :=
  (k, v) :: eraseKey m k

/-- GoSlice models a Go slice of todos together with its nil-ness, which is
observable through JSON encoding (`nil` encodes as `null`, an empty non-nil
slice as `[]`). -/
structure GoSlice where
  isNil : Bool
  elems : List Todo
deriving DecidableEq, Repr

/-- RepoState is the state of `InMemoryTodoRepository`: the map and the
`nextID` allocator.  The mutex only serializes operations and has no
sequential content, so it is not modelled. -/
structure RepoState where
  todos : List (Int × Todo)
  nextID : Int
deriving DecidableEq, Repr

/-- NewInMemoryTodoRepository mirrors the constructor: empty map, `nextID = 1`. -/
def NewInMemoryTodoRepository : RepoState :=
  { todos := [], nextID := 1 }

/-- wrap64 is Go's two's-complement 64-bit integer wraparound: the value of
an `int` addition whose mathematical result may leave `[-2^63, 2^63-1]`. -/
def wrap64 (v : Int) : Int :=
  (v + 9223372036854775808) % 18446744073709551616 - 9223372036854775808

namespace Repo

/-- Create mirrors `(*InMemoryTodoRepository).Create`.  If `todo.ID == 0` the
next id is assigned and the allocator incremented; otherwise insertion at the
caller's id fails with `ErrTodoAlreadyExists` when occupied and on success
bumps `nextID` to `todo.ID + 1` when `todo.ID >= nextID`.  Both bumps are Go
`int` additions and wrap at 2^63 (`wrap64`).  The returned todo is the
stored record (Go mutates the caller's todo in place). -/
def Create (s : RepoState) (todo : Todo) : Except GoError (RepoState × Todo) :=
  if todo.ID = 0 then
    let assigned : Todo := { todo with ID := s.nextID }
    .ok ({ todos := insertKey s.todos assigned.ID assigned,
           nextID := wrap64 (s.nextID + 1) }, assigned)
  else
    match findKey s.todos todo.ID with
    | some _ => .error .errTodoAlreadyExists
    | none =>
      let nid : Int := if s.nextID ≤ todo.ID then wrap64 (todo.ID + 1) else s.nextID
      .ok ({ todos := insertKey s.todos todo.ID todo, nextID := nid }, todo)

/-- GetAll mirrors `GetAll`: builds a non-nil slice (`make([]*Todo, 0, n)`)
holding a snapshot of the stored values; it never fails. -/
def GetAll (s : RepoState) : Except GoError GoSlice :=
  .ok { isNil := false, elems := s.todos.map (fun p => p.2) }

/-- GetByID mirrors `GetByID`: the record, or `ErrTodoNotFound`. -/
def GetByID (s : RepoState) (id : Int) : Except GoError Todo :=
  match findKey s.todos id with
  | none => .error .errTodoNotFound
  | some t => .ok t

/-- Update mirrors `Update`: wholesale replacement at `todo.ID`, failing with
`ErrTodoNotFound` when the id is absent. -/
def Update (s : RepoState) (todo : Todo) : Except GoError RepoState :=
  match findKey s.todos todo.ID with
  | none => .error .errTodoNotFound
  | some _ => .ok { s with todos := insertKey s.todos todo.ID todo }

/-- Delete mirrors `Delete`: removal, failing with `ErrTodoNotFound` when the
id is absent. -/
def Delete (s : RepoState) (id : Int) : Except GoError RepoState :=
  match findKey s.todos id with
  | none => .error .errTodoNotFound
  | some _ => .ok { s with todos := eraseKey s.todos id }

/-- Exists mirrors `Exists`: a plain presence check. -/
def Exists (s : RepoState) (id : Int) : Bool :=
  (findKey s.todos id).isSome

end Repo

namespace UseCase

/-- CreateTodo mirrors `(*TodoUseCase).CreateTodo`: validation gate, then the
storage `Create`; the created record is returned. -/
def CreateTodo (s : RepoState) (todo : Todo) : Except GoError (RepoState × Todo) :=
  match todo.Validate with
  | some err => .error err
  | none => Repo.Create s todo

/-- GetAllTodos is a passthrough to storage `GetAll`. -/
def GetAllTodos (s : RepoState) : Except GoError GoSlice :=
  Repo.GetAll s

/-- GetTodoByID is a passthrough to storage `GetByID`. -/
def GetTodoByID (s : RepoState) (id : Int) : Except GoError Todo :=
  Repo.GetByID s id

/-- UpdateTodo mirrors `(*TodoUseCase).UpdateTodo`: validation gate, existence
check via `Exists` (failing with `ErrTodoNotFound`), then the payload's id is
overwritten with the path id before storage `Update`. -/
def UpdateTodo (s : RepoState) (id : Int) (todo : Todo) : Except GoError (RepoState × Todo) :=
  match todo.Validate with
  | some err => .error err
  | none =>
    if Repo.Exists s id then
      match Repo.Update s { todo with ID := id } with
      | .error e => .error e
      | .ok s2 => .ok (s2, { todo with ID := id })
    else .error .errTodoNotFound

/-- DeleteTodo is a passthrough to storage `Delete`. -/
def DeleteTodo (s : RepoState) (id : Int) : Except GoError RepoState :=
  Repo.Delete s id

end UseCase

/-- digitsLoop is the digit-accumulation loop of `strconv.Atoi`/`ParseInt`:
consumes decimal digits, failing on any non-digit. -/
def digitsLoop : Int → List Char → Option Int
  | acc, [] => some acc
  | acc, c :: rest =>
    if c.isDigit then digitsLoop (acc * 10 + ((c.toNat : Int) - 48)) rest else none

/-- digitsVal parses a non-empty all-digit string to its value. -/
def digitsVal : List Char → Option Int
  | [] => none
  | c :: rest => digitsLoop 0 (c :: rest)

/-- int64Ok is the range check of `strconv.ParseInt` for 64-bit `int`:
out-of-range input is a parse error (`strconv.ErrRange`). -/
def int64Ok (v : Int) : Bool :=
  decide (-(9223372036854775808 : Int) ≤ v ∧ v ≤ 9223372036854775807)

/-- goAtoi models `strconv.Atoi`: an optional single `+`/`-` sign followed by
at least one decimal digit, with the int64 range check; everything else is an
error (`none`). -/
def goAtoi : List Char → Option Int
  | [] => none
  | c :: rest =>
    if c = '+' then
      match digitsVal rest with
      | none => none
      | some v => if int64Ok v then some v else none
    else if c = '-' then
      match digitsVal rest with
      | none => none
      | some v => if int64Ok (-v) then some (-v) else none
    else
      match digitsVal (c :: rest) with
      | none => none
      | some v => if int64Ok v then some v else none

/-- splitChar is Go's `strings.Split(s, sep)` for a one-character separator:
it keeps empty segments, and splitting the empty string yields `[""]`. -/
def splitChar (sep : Char) : List Char → List (List Char)
  | [] => [[]]
  | c :: rest =>
    match splitChar sep rest with
    | [] => [[]]
    | seg :: segs => if c = sep then [] :: seg :: segs else (c :: seg) :: segs

/-- trimChar is Go's `strings.Trim(s, cutset)` for the one-character cutset:
removes every leading and trailing occurrence of `c`. -/
def trimChar (cs : List Char) (c : Char) : List Char :=
  ((cs.dropWhile (fun x => x = c)).reverse.dropWhile (fun x => x = c)).reverse

/-- extractIDchars is the body of `extractIDFromPath` on the path's character
list: trim slashes, split on `/`, require at least two segments, and `Atoi`
the second segment. -/
def extractIDchars (path : List Char) : Option Int :=
  let parts := splitChar '/' (trimChar path '/')
  if parts.length < 2 then none
  else
    match parts.get? 1 with
    | none => none
    | some seg => goAtoi seg

/-- extractIDFromPath mirrors `extractIDFromPath` of
`internal/http/handler/todo-handler.go`; `none` is the error result. -/
def extractIDFromPath (s : String) : Option Int :=
  extractIDchars s.data

/-- RespBody is the payload a handler passes to `respondWithJSON` (or the
empty body written by `Delete`'s `WriteHeader`). -/
inductive RespBody where
  | todoJson (t : Todo)
  | sliceJson (ts : GoSlice)
  | errJson (msg : String)
  | empty
deriving DecidableEq, Repr

/-- jsonString renders a Go string as a JSON string literal (escaping of
special characters is not modelled; no claim depends on it). -/
def jsonString (s : String) : String :=
  "\"" ++ s ++ "\""

/-- jsonOfTodo renders a todo the way `encoding/json` does with the struct
tags `id`, `title`, `description`, `completed`. -/
def jsonOfTodo (t : Todo) : String :=
  "\x7b\"id\":" ++ toString t.ID ++ ",\"title\":" ++ jsonString t.Title ++
    ",\"description\":" ++ jsonString t.Description ++ ",\"completed\":" ++
    (if t.Completed then "true" else "false") ++ "\x7d"

/-- jsonOfSlice renders a Go `[]*Todo` as `encoding/json` does: a nil slice
encodes as `null`, a non-nil slice as a JSON array. -/
def jsonOfSlice (s : GoSlice) : String :=
  if s.isNil then "null"
  else "[" ++ String.intercalate "," (s.elems.map jsonOfTodo) ++ "]"

/-- renderBody renders a handler payload to the bytes of the response body. -/
def renderBody : RespBody → String
  | .todoJson t => jsonOfTodo t
  | .sliceJson ts => jsonOfSlice ts
  | .errJson m => "\x7b\"error\":" ++ jsonString m ++ "\x7d"
  | .empty => ""

namespace Handler

/-- handleCreateTodo mirrors `(*TodoHandler).CreateTodo` (POST /todos).  The
request body is pre-decoded: `none` models a body `json.Decode` rejects, and
is answered 400 before the use case (and hence validation) runs. -/
def handleCreateTodo (s : RepoState) (body : Option Todo) : Nat × RespBody × RepoState :=
  match body with
  | none => (400, .errJson "Invalid request body", s)
  | some todo =>
    match UseCase.CreateTodo s todo with
    | .error e =>
      if e = .errTodoAlreadyExists then (409, .errJson e.message, s)
      else (400, .errJson e.message, s)
    | .ok (s2, created) => (201, .todoJson created, s2)

/-- handleGetAllTodos mirrors `(*TodoHandler).GetAllTodos` (GET /todos). -/
def handleGetAllTodos (s : RepoState) : Nat × RespBody × RepoState :=
  match UseCase.GetAllTodos s with
  | .error _ => (500, .errJson "Failed to fetch todos", s)
  | .ok ts => (200, .sliceJson ts, s)

/-- handleGetTodoByID mirrors `(*TodoHandler).GetTodoByID`. -/
def handleGetTodoByID (s : RepoState) (id : Int) : Nat × RespBody × RepoState :=
  match UseCase.GetTodoByID s id with
  | .error e =>
    if e = .errTodoNotFound then (404, .errJson "Todo not found", s)
    else (500, .errJson "Failed to fetch todo", s)
  | .ok t => (200, .todoJson t, s)

/-- handleUpdateTodo mirrors `(*TodoHandler).UpdateTodo` (PUT /todos/id). -/
def handleUpdateTodo (s : RepoState) (id : Int) (body : Option Todo) : Nat × RespBody × RepoState :=
  match body with
  | none => (400, .errJson "Invalid request body", s)
  | some todo =>
    match UseCase.UpdateTodo s id todo with
    | .error e =>
      if e = .errTodoNotFound then (404, .errJson "Todo not found", s)
      else (400, .errJson e.message, s)
    | .ok (s2, t) => (200, .todoJson t, s2)

/-- handleDeleteTodo mirrors `(*TodoHandler).DeleteTodo` (DELETE /todos/id). -/
def handleDeleteTodo (s : RepoState) (id : Int) : Nat × RespBody × RepoState :=
  match UseCase.DeleteTodo s id with
  | .error e =>
    if e = .errTodoNotFound then (404, .errJson "Todo not found", s)
    else (500, .errJson "Failed to delete todo", s)
  | .ok s2 => (204, .empty, s2)

/-- handleTodos mirrors `(*TodoHandler).HandleTodos`: method dispatch on the
collection route `/todos`. -/
def handleTodos (s : RepoState) (method : String) (body : Option Todo) : Nat × RespBody × RepoState :=
  if method = "POST" then handleCreateTodo s body
  else if method = "GET" then handleGetAllTodos s
  else (405, .errJson "Method not allowed", s)

/-- handleTodoByID mirrors `(*TodoHandler).HandleTodoByID`: id extraction from
the path (400 on failure) and then method dispatch on the item route. -/
def handleTodoByID (s : RepoState) (method : String) (path : String) (body : Option Todo) :
    Nat × RespBody × RepoState :=
  match extractIDFromPath path with
  | none => (400, .errJson "Invalid todo ID", s)
  | some id =>
    if method = "GET" then handleGetTodoByID s id
    else if method = "PUT" then handleUpdateTodo s id body
    else if method = "DELETE" then handleDeleteTodo s id
    else (405, .errJson "Method not allowed", s)

end Handler

/-- Op is a call to the storage engine's mutators, for reasoning about
sequences of `Create` and `Delete` calls on one store. -/
inductive Op where
  | create (t : Todo)
  | del (id : Int)
deriving DecidableEq, Repr

/-- isCreate discriminates `Op.create`. -/
def Op.isCreate : Op → Bool
  | .create _ => true
  | .del _ => false

/-- applyOp runs one storage call; a failed call leaves the state unchanged.
The event list records, for a successful create, whether the id was
auto-assigned (input id 0) and which id was assigned. -/
def applyOp (s : RepoState) : Op → RepoState × List (Bool × Int)
  | .create t =>
    match Repo.Create s t with
    | .ok (s2, stored) => (s2, [(t.ID = 0, stored.ID)])
    | .error _ => (s, [])
  | .del id =>
    match Repo.Delete s id with
    | .ok s2 => (s2, [])
    | .error _ => (s, [])

/-- runOps runs a sequence of storage calls from a state, collecting the
assignment events in call order. -/
def runOps : RepoState → List Op → RepoState × List (Bool × Int)
  | s, [] => (s, [])
  | s, op :: ops =>
    ((runOps (applyOp s op).1 ops).1, (applyOp s op).2 ++ (runOps (applyOp s op).1 ops).2)

/-- stepOk says the storage call performs no wrapping allocator bump: when a
create takes the auto branch, `nextID + 1` fits int64, and when it takes the
caller-supplied branch and advances the allocator, `id + 1` fits int64.  A
wrapping bump is the one behaviour of Go's `Create` where the allocator goes
backwards. -/
def stepOk (s : RepoState) (op : Op) : Bool :=
  match op with
  | .create t =>
    if t.ID = 0 then int64Ok (s.nextID + 1)
    else
      match findKey s.todos t.ID with
      | some _ => true
      | none => if s.nextID ≤ t.ID then int64Ok (t.ID + 1) else true
  | .del _ => true

/-- noWrap says no call of the run performs a wrapping allocator bump. -/
def noWrap : RepoState → List Op → Bool
  | _, [] => true
  | s, op :: ops => stepOk s op && noWrap (applyOp s op).1 ops

/-- keysBelow says every key in the store is below the allocator value; it
holds for the fresh repository and is preserved by every wrap-free
operation. -/
def keysBelow (s : RepoState) : Prop :=
  ∀ p ∈ s.todos, p.1 < s.nextID

/-- StoreInv is the data-model invariant on the stored records: every stored
pair has a non-zero key whose record carries that key as its id, and keys
are unique. -/
def StoreInv (s : RepoState) : Prop :=
  (∀ p ∈ s.todos, p.1 ≠ 0 ∧ p.2.ID = p.1) ∧ (s.todos.map Prod.fst).Nodup

/-- findKey after inserting at the same key yields the inserted value. -/
theorem findKey_insertKey_self (m : List (Int × Todo)) (k : Int) (v : Todo) :
    findKey (insertKey m k v) k = some v := by
  simp [insertKey, findKey]

/-- findKey after erasing the same key yields nothing. -/
theorem findKey_eraseKey_self (m : List (Int × Todo)) (k : Int) :
    findKey (eraseKey m k) k = none := by
  induction m with
  | nil => rfl
  | cons p rest ih =>
    by_cases h : p.1 = k <;> simp [eraseKey, findKey, h, ih]

/-- findKey at a different key is unaffected by eraseKey. -/
theorem findKey_eraseKey_ne (m : List (Int × Todo)) (k k' : Int) (h : k' ≠ k) :
    findKey (eraseKey m k) k' = findKey m k' := by
  induction m with
  | nil => rfl
  | cons p rest ih =>
    by_cases h1 : p.1 = k <;> by_cases h2 : p.1 = k' <;>
      simp_all [eraseKey, findKey]

/-- findKey at a different key is unaffected by insertKey. -/
theorem findKey_insertKey_ne (m : List (Int × Todo)) (k : Int) (v : Todo) (k' : Int)
    (h : k' ≠ k) : findKey (insertKey m k v) k' = findKey m k' := by
  simp [insertKey, findKey, Ne.symm h, findKey_eraseKey_ne m k k' h]

/-- a successful findKey exhibits a member of the list. -/
theorem findKey_eq_some_mem (m : List (Int × Todo)) (k : Int) (v : Todo)
    (h : findKey m k = some v) : (k, v) ∈ m := by
  induction m with
  | nil => simp [findKey] at h
  | cons p rest ih =>
    by_cases h1 : p.1 = k
    · simp only [findKey, h1, if_true, Option.some.injEq] at h
      obtain ⟨a, b⟩ := p
      simp only at h1 h
      subst h1
      subst h
      exact List.mem_cons_self _ _
    · simp [findKey, h1] at h
      exact List.mem_cons_of_mem p (ih h)

/-- every member of eraseKey's result was in the input. -/
theorem mem_eraseKey (m : List (Int × Todo)) (k : Int) (p : Int × Todo)
    (h : p ∈ eraseKey m k) : p ∈ m := by
  induction m with
  | nil => simp [eraseKey] at h
  | cons q rest ih =>
    by_cases h1 : q.1 = k
    · simp [eraseKey, h1] at h
      exact List.mem_cons_of_mem q (ih h)
    · simp only [eraseKey, h1, if_false, List.mem_cons] at h
      rcases h with h | h
      · exact h ▸ List.mem_cons_self q rest
      · exact List.mem_cons_of_mem q (ih h)

/-- C2. Round-trip: after a successful Create, GetByID at the assigned id
returns the stored record, which coincides with the input on every field but
the id. -/
theorem claim_C2 (s : RepoState) (todo : Todo) (s2 : RepoState) (stored : Todo)
    (h : Repo.Create s todo = .ok (s2, stored)) :
    Repo.GetByID s2 stored.ID = .ok stored ∧ stored.Title = todo.Title ∧
      stored.Description = todo.Description ∧ stored.Completed = todo.Completed := by
  unfold Repo.Create at h
  by_cases h0 : todo.ID = 0
  · simp only [h0, if_true, Except.ok.injEq, Prod.mk.injEq] at h
    obtain ⟨hs, ht⟩ := h
    subst hs
    subst ht
    refine ⟨?_, rfl, rfl, rfl⟩
    simp [Repo.GetByID, findKey_insertKey_self]
  · simp only [h0, if_false] at h
    cases hf : findKey s.todos todo.ID with
    | some t => rw [hf] at h; exact absurd h (by simp)
    | none =>
      rw [hf] at h
      simp only [Except.ok.injEq, Prod.mk.injEq] at h
      obtain ⟨hs, ht⟩ := h
      subst hs
      subst ht
      refine ⟨?_, rfl, rfl, rfl⟩
      simp [Repo.GetByID, findKey_insertKey_self]

/-- claim_C2 at a concrete input. -/
theorem claim_C2_witness :
    Repo.GetByID { todos := [(1, ⟨1, "buy milk", "d", false⟩)], nextID := 2 } (1 : Int) =
        .ok ⟨1, "buy milk", "d", false⟩ ∧
      ("buy milk" : String) = "buy milk" ∧ ("d" : String) = "d" ∧ false = false := by
  exact claim_C2 NewInMemoryTodoRepository ⟨0, "buy milk", "d", false⟩ _ _ rfl

/-- C3. GetByID, Update and Delete on an absent id fail with NotFound, and a
second Delete after a successful Delete fails with NotFound. -/
theorem claim_C3 :
    (∀ (s : RepoState) (id : Int), findKey s.todos id = none →
      Repo.GetByID s id = .error .errTodoNotFound ∧
        (∀ t : Todo, t.ID = id → Repo.Update s t = .error .errTodoNotFound) ∧
        Repo.Delete s id = .error .errTodoNotFound) ∧
    (∀ (s : RepoState) (id : Int) (s2 : RepoState), Repo.Delete s id = .ok s2 →
      Repo.GetByID s2 id = .error .errTodoNotFound ∧
        (∀ t : Todo, t.ID = id → Repo.Update s2 t = .error .errTodoNotFound) ∧
        Repo.Delete s2 id = .error .errTodoNotFound) := by
  have base : ∀ (s : RepoState) (id : Int), findKey s.todos id = none →
      Repo.GetByID s id = .error .errTodoNotFound ∧
        (∀ t : Todo, t.ID = id → Repo.Update s t = .error .errTodoNotFound) ∧
        Repo.Delete s id = .error .errTodoNotFound := by
    intro s id h
    refine ⟨?_, ?_, ?_⟩
    · simp [Repo.GetByID, h]
    · intro t ht
      simp [Repo.Update, ht, h]
    · simp [Repo.Delete, h]
  refine ⟨base, ?_⟩
  intro s id s2 h
  have h2 : s2.todos = eraseKey s.todos id := by
    unfold Repo.Delete at h
    cases hf : findKey s.todos id with
    | none => rw [hf] at h; exact absurd h (by simp)
    | some t =>
      rw [hf] at h
      simp only [Except.ok.injEq] at h
      rw [← h]
  apply base
  rw [h2]
  exact findKey_eraseKey_self s.todos id

/-- claim_C3 at concrete inputs: id 9999 was never inserted; id 7 is deleted
from a one-element store and a second delete fails. -/
theorem claim_C3_witness :
    Repo.GetByID NewInMemoryTodoRepository 9999 = .error .errTodoNotFound ∧
      Repo.Update NewInMemoryTodoRepository ⟨9999, "x", "", false⟩ = .error .errTodoNotFound ∧
      Repo.Delete NewInMemoryTodoRepository 9999 = .error .errTodoNotFound ∧
      Repo.Delete { todos := [], nextID := 8 } 7 = .error .errTodoNotFound := by
  refine ⟨(claim_C3.1 NewInMemoryTodoRepository 9999 rfl).1,
    (claim_C3.1 NewInMemoryTodoRepository 9999 rfl).2.1 _ rfl,
    (claim_C3.1 NewInMemoryTodoRepository 9999 rfl).2.2, ?_⟩
  exact (claim_C3.2 { todos := [(7, ⟨7, "a", "", false⟩)], nextID := 8 } 7
    { todos := [], nextID := 8 } rfl).2.2

/-- C4. With an empty title, CreateTodo and UpdateTodo fail with the
validation error before any storage call, and the handlers answer 400 with
the store left untouched (the returned state is the input state). -/
theorem claim_C4 (s : RepoState) (id : Int) (todo : Todo) (h : todo.Title = "") :
    UseCase.CreateTodo s todo = .error (.errNew "title cannot be empty") ∧
      UseCase.UpdateTodo s id todo = .error (.errNew "title cannot be empty") ∧
      Handler.handleCreateTodo s (some todo) = (400, .errJson "title cannot be empty", s) ∧
      Handler.handleUpdateTodo s id (some todo) = (400, .errJson "title cannot be empty", s) := by
  have hv : todo.Validate = some (.errNew "title cannot be empty") := by
    simp [Todo.Validate, h]
  have h1 : UseCase.CreateTodo s todo = .error (.errNew "title cannot be empty") := by
    simp [UseCase.CreateTodo, hv]
  have h2 : UseCase.UpdateTodo s id todo = .error (.errNew "title cannot be empty") := by
    simp [UseCase.UpdateTodo, hv]
  refine ⟨h1, h2, ?_, ?_⟩
  · simp [Handler.handleCreateTodo, h1, GoError.message]
  · simp [Handler.handleUpdateTodo, h2, GoError.message]

/-- claim_C4 at a concrete input. -/
theorem claim_C4_witness :
    UseCase.CreateTodo NewInMemoryTodoRepository ⟨0, "", "d", false⟩ =
        .error (.errNew "title cannot be empty") ∧
      UseCase.UpdateTodo NewInMemoryTodoRepository 1 ⟨0, "", "d", false⟩ =
        .error (.errNew "title cannot be empty") ∧
      Handler.handleCreateTodo NewInMemoryTodoRepository (some ⟨0, "", "d", false⟩) =
        (400, .errJson "title cannot be empty", NewInMemoryTodoRepository) ∧
      Handler.handleUpdateTodo NewInMemoryTodoRepository 1 (some ⟨0, "", "d", false⟩) =
        (400, .errJson "title cannot be empty", NewInMemoryTodoRepository) :=
  claim_C4 NewInMemoryTodoRepository 1 ⟨0, "", "d", false⟩ rfl

/-- a successful Create assigns the pre-state's `nextID` exactly in the auto
branch and writes the stored record into the map. -/
theorem create_meta (s : RepoState) (t : Todo) (s2 : RepoState) (st : Todo)
    (h : Repo.Create s t = .ok (s2, st)) :
    (t.ID = 0 → st.ID = s.nextID) ∧ s2.todos = insertKey s.todos st.ID st := by
  unfold Repo.Create at h
  by_cases h0 : t.ID = 0
  · simp only [h0, if_true, Except.ok.injEq, Prod.mk.injEq] at h
    obtain ⟨hs, ht⟩ := h
    subst hs
    subst ht
    exact ⟨fun _ => rfl, rfl⟩
  · simp only [h0, if_false] at h
    cases hf : findKey s.todos t.ID with
    | some v => rw [hf] at h; exact absurd h (by simp)
    | none =>
      rw [hf] at h
      simp only [Except.ok.injEq, Prod.mk.injEq] at h
      obtain ⟨hs, ht⟩ := h
      subst hs
      subst ht
      exact ⟨fun hh => absurd hh h0, rfl⟩

/-- wrap64 is the identity on values already in int64 range. -/
theorem wrap64_eq (v : Int) (h : int64Ok v = true) : wrap64 v = v := by
  simp only [int64Ok, decide_eq_true_eq] at h
  unfold wrap64
  omega

/-- a wrap-free successful Create never decreases the allocator, and stores
strictly below the new allocator value. -/
theorem create_nextID (s : RepoState) (t : Todo) (s2 : RepoState) (st : Todo)
    (hstep : stepOk s (Op.create t) = true) (h : Repo.Create s t = .ok (s2, st)) :
    s.nextID ≤ s2.nextID ∧ st.ID < s2.nextID := by
  unfold Repo.Create at h
  simp only [stepOk] at hstep
  by_cases h0 : t.ID = 0
  · simp only [h0, if_true, Except.ok.injEq, Prod.mk.injEq] at h
    simp only [h0, if_true] at hstep
    obtain ⟨hs, ht⟩ := h
    subst hs
    subst ht
    have hw := wrap64_eq (s.nextID + 1) hstep
    constructor
    · show s.nextID ≤ wrap64 (s.nextID + 1)
      omega
    · show s.nextID < wrap64 (s.nextID + 1)
      omega
  · simp only [h0, if_false] at h hstep
    cases hf : findKey s.todos t.ID with
    | some v => rw [hf] at h; exact absurd h (by simp)
    | none =>
      rw [hf] at h
      simp only [hf] at hstep
      simp only [Except.ok.injEq, Prod.mk.injEq] at h
      obtain ⟨hs, ht⟩ := h
      subst hs
      subst ht
      by_cases hle : s.nextID ≤ t.ID
      · rw [if_pos hle] at hstep
        have hw := wrap64_eq (t.ID + 1) hstep
        constructor
        · show s.nextID ≤ (if s.nextID ≤ t.ID then wrap64 (t.ID + 1) else s.nextID)
          rw [if_pos hle]
          omega
        · show t.ID < (if s.nextID ≤ t.ID then wrap64 (t.ID + 1) else s.nextID)
          rw [if_pos hle]
          omega
      · constructor
        · show s.nextID ≤ (if s.nextID ≤ t.ID then wrap64 (t.ID + 1) else s.nextID)
          rw [if_neg hle]
        · show t.ID < (if s.nextID ≤ t.ID then wrap64 (t.ID + 1) else s.nextID)
          rw [if_neg hle]
          omega

/-- a successful Delete keeps the allocator and erases the key. -/
theorem delete_meta (s : RepoState) (id : Int) (s2 : RepoState)
    (h : Repo.Delete s id = .ok s2) :
    s2.nextID = s.nextID ∧ s2.todos = eraseKey s.todos id := by
  unfold Repo.Delete at h
  cases hf : findKey s.todos id with
  | none => rw [hf] at h; exact absurd h (by simp)
  | some t =>
    rw [hf] at h
    simp only [Except.ok.injEq] at h
    rw [← h]
    exact ⟨rfl, rfl⟩

/-- a wrap-free applyOp never decreases the allocator. -/
theorem applyOp_nextID_mono (s : RepoState) (op : Op) (hstep : stepOk s op = true) :
    s.nextID ≤ (applyOp s op).1.nextID := by
  cases op with
  | create t =>
    cases h : Repo.Create s t with
    | error e => simp [applyOp, h]
    | ok r =>
      simp only [applyOp, h]
      exact (create_nextID s t r.1 r.2 hstep (by rw [h])).1
  | del id =>
    cases h : Repo.Delete s id with
    | error e => simp [applyOp, h]
    | ok s2 =>
      simp only [applyOp, h]
      exact le_of_eq (delete_meta s id s2 h).1.symm

/-- an auto-assignment event of applyOp carries exactly the pre-state's
allocator value. -/
theorem applyOp_auto_event (s : RepoState) (op : Op) :
    ∀ ev ∈ (applyOp s op).2, ev.1 = true → ev.2 = s.nextID := by
  cases op with
  | create t =>
    cases h : Repo.Create s t with
    | error e => simp [applyOp, h]
    | ok r =>
      intro ev hev hauto
      simp only [applyOp, h, List.mem_singleton] at hev
      subst hev
      simp only [decide_eq_true_eq] at hauto
      exact (create_meta s t r.1 r.2 (by rw [h])).1 hauto
  | del id =>
    cases h : Repo.Delete s id with
    | error e => simp [applyOp, h]
    | ok s2 => simp [applyOp, h]

/-- every assignment event of a wrap-free applyOp lies below the post-state
allocator. -/
theorem applyOp_event_lt (s : RepoState) (op : Op) (hstep : stepOk s op = true) :
    ∀ ev ∈ (applyOp s op).2, ev.2 < (applyOp s op).1.nextID := by
  cases op with
  | create t =>
    cases h : Repo.Create s t with
    | error e => simp [applyOp, h]
    | ok r =>
      intro ev hev
      simp only [applyOp, h, List.mem_singleton] at hev
      subst hev
      simp only [applyOp, h]
      exact (create_nextID s t r.1 r.2 hstep (by rw [h])).2
  | del id =>
    cases h : Repo.Delete s id with
    | error e => simp [applyOp, h]
    | ok s2 => simp [applyOp, h]

/-- a wrap-free run splits into a wrap-free first step and a wrap-free
rest. -/
theorem noWrap_cons (s : RepoState) (op : Op) (ops : List Op)
    (h : noWrap s (op :: ops) = true) :
    stepOk s op = true ∧ noWrap (applyOp s op).1 ops = true := by
  simpa [noWrap, Bool.and_eq_true] using h

/-- a wrap-free run never decreases the allocator. -/
theorem runOps_nextID_mono (ops : List Op) (s : RepoState)
    (hnw : noWrap s ops = true) :
    s.nextID ≤ (runOps s ops).1.nextID := by
  induction ops generalizing s with
  | nil => simp [runOps]
  | cons op ops ih =>
    obtain ⟨h1, h2⟩ := noWrap_cons s op ops hnw
    simp only [runOps]
    exact le_trans (applyOp_nextID_mono s op h1) (ih (applyOp s op).1 h2)

/-- every auto-assignment event of a wrap-free run is at least the starting
allocator value. -/
theorem runOps_auto_ge (ops : List Op) (s : RepoState) (hnw : noWrap s ops = true) :
    ∀ ev ∈ (runOps s ops).2, ev.1 = true → s.nextID ≤ ev.2 := by
  induction ops generalizing s with
  | nil => simp [runOps]
  | cons op ops ih =>
    obtain ⟨h1, h2⟩ := noWrap_cons s op ops hnw
    intro ev hev hauto
    simp only [runOps, List.mem_append] at hev
    rcases hev with hev | hev
    · exact le_of_eq (applyOp_auto_event s op ev hev hauto).symm
    · exact le_trans (applyOp_nextID_mono s op h1) (ih (applyOp s op).1 h2 ev hev hauto)

/-- Pairwise holds on any list of length at most one. -/
theorem pairwise_of_short {α : Type} (R : α → α → Prop) (l : List α)
    (h : l.length ≤ 1) : List.Pairwise R l := by
  cases l with
  | nil => exact List.Pairwise.nil
  | cons a rest =>
    cases rest with
    | nil => simp
    | cons b r2 => simp at h

/-- applyOp emits at most one event. -/
theorem applyOp_events_short (s : RepoState) (op : Op) :
    (applyOp s op).2.length ≤ 1 := by
  cases op with
  | create t => cases h : Repo.Create s t <;> simp [applyOp, h]
  | del id => cases h : Repo.Delete s id <;> simp [applyOp, h]

/-- in any wrap-free run, every event id is strictly below every later
auto-assigned id: the allocator dominates all previously assigned ids. -/
theorem runOps_pairwise_auto (ops : List Op) (s : RepoState)
    (hnw : noWrap s ops = true) :
    List.Pairwise (fun a b : Bool × Int => b.1 = true → a.2 < b.2) (runOps s ops).2 := by
  induction ops generalizing s with
  | nil => simp [runOps]
  | cons op ops ih =>
    obtain ⟨h1, h2⟩ := noWrap_cons s op ops hnw
    simp only [runOps]
    apply List.pairwise_append.mpr
    refine ⟨pairwise_of_short _ _ (applyOp_events_short s op), ih (applyOp s op).1 h2, ?_⟩
    intro a ha b hb hauto
    exact lt_of_lt_of_le (applyOp_event_lt s op h1 a ha)
      (runOps_auto_ge ops (applyOp s op).1 h2 b hb hauto)

/-- a successful Create from a keysBelow state stores at a key that was free
beforehand. -/
theorem create_ok_fresh (s : RepoState) (t : Todo) (s2 : RepoState) (st : Todo)
    (hkb : keysBelow s) (h : Repo.Create s t = .ok (s2, st)) :
    findKey s.todos st.ID = none := by
  unfold Repo.Create at h
  by_cases h0 : t.ID = 0
  · simp only [h0, if_true, Except.ok.injEq, Prod.mk.injEq] at h
    obtain ⟨hs, ht⟩ := h
    subst ht
    show findKey s.todos s.nextID = none
    cases hf : findKey s.todos s.nextID with
    | none => rfl
    | some v =>
      have hm := findKey_eq_some_mem s.todos s.nextID v hf
      have := hkb _ hm
      simp at this
  · simp only [h0, if_false] at h
    cases hf : findKey s.todos t.ID with
    | some v => rw [hf] at h; exact absurd h (by simp)
    | none =>
      rw [hf] at h
      simp only [Except.ok.injEq, Prod.mk.injEq] at h
      rw [← h.2]
      exact hf

/-- membership in insertKey's result is the new binding or an old one. -/
theorem mem_insertKey (m : List (Int × Todo)) (k : Int) (v : Todo) (p : Int × Todo)
    (h : p ∈ insertKey m k v) : p = (k, v) ∨ p ∈ m := by
  simp only [insertKey, List.mem_cons] at h
  rcases h with h | h
  · exact Or.inl h
  · exact Or.inr (mem_eraseKey m k p h)

/-- a wrap-free applyOp preserves keysBelow. -/
theorem keysBelow_applyOp (s : RepoState) (op : Op) (hstep : stepOk s op = true)
    (hkb : keysBelow s) :
    keysBelow (applyOp s op).1 := by
  cases op with
  | create t =>
    cases h : Repo.Create s t with
    | error e => simpa [applyOp, h] using hkb
    | ok r =>
      obtain ⟨hmono, hlt⟩ := create_nextID s t r.1 r.2 hstep (by rw [h])
      obtain ⟨_, htodos⟩ := create_meta s t r.1 r.2 (by rw [h])
      simp only [applyOp, h]
      intro p hp
      rw [htodos] at hp
      rcases mem_insertKey _ _ _ _ hp with hp | hp
      · rw [hp]
        exact hlt
      · exact lt_of_lt_of_le (hkb _ hp) hmono
  | del id =>
    cases h : Repo.Delete s id with
    | error e => simpa [applyOp, h] using hkb
    | ok s2 =>
      obtain ⟨hnid, htodos⟩ := delete_meta s id s2 h
      simp only [applyOp, h]
      intro p hp
      rw [htodos] at hp
      rw [hnid]
      exact hkb _ (mem_eraseKey _ _ _ hp)

/-- a create call never removes a present key (it can only overwrite the
value stored there). -/
theorem exists_applyOp_create (s : RepoState) (op : Op) (k : Int)
    (hc : op.isCreate = true) (h : Repo.Exists s k = true) :
    Repo.Exists (applyOp s op).1 k = true := by
  cases op with
  | del id => simp [Op.isCreate] at hc
  | create t =>
    cases hcr : Repo.Create s t with
    | error e => simpa [applyOp, hcr] using h
    | ok r =>
      obtain ⟨_, htodos⟩ := create_meta s t r.1 r.2 (by rw [hcr])
      simp only [applyOp, hcr]
      unfold Repo.Exists
      rw [htodos]
      by_cases hk : k = r.2.ID
      · rw [hk, findKey_insertKey_self]
        rfl
      · rw [findKey_insertKey_ne _ _ _ _ hk]
        exact h

/-- each event's id is present in the store immediately after its call. -/
theorem applyOp_event_enters (s : RepoState) (op : Op) :
    ∀ ev ∈ (applyOp s op).2, Repo.Exists (applyOp s op).1 ev.2 = true := by
  cases op with
  | create t =>
    cases h : Repo.Create s t with
    | error e => simp [applyOp, h]
    | ok r =>
      intro ev hev
      simp only [applyOp, h, List.mem_singleton] at hev
      subst hev
      obtain ⟨_, htodos⟩ := create_meta s t r.1 r.2 (by rw [h])
      simp only [applyOp, h]
      unfold Repo.Exists
      rw [htodos, findKey_insertKey_self]
      rfl
  | del id =>
    cases h : Repo.Delete s id with
    | error e => simp [applyOp, h]
    | ok s2 => simp [applyOp, h]

/-- from a keysBelow state, each event's id was absent just before its call. -/
theorem applyOp_event_fresh (s : RepoState) (op : Op) (hkb : keysBelow s) :
    ∀ ev ∈ (applyOp s op).2, Repo.Exists s ev.2 = false := by
  cases op with
  | create t =>
    cases h : Repo.Create s t with
    | error e => simp [applyOp, h]
    | ok r =>
      intro ev hev
      simp only [applyOp, h, List.mem_singleton] at hev
      subst hev
      unfold Repo.Exists
      rw [create_ok_fresh s t r.1 r.2 hkb (by rw [h])]
      rfl
  | del id =>
    cases h : Repo.Delete s id with
    | error e => simp [applyOp, h]
    | ok s2 => simp [applyOp, h]

/-- in a delete-free wrap-free run from a keysBelow state, no event
reassigns an id already present in the store. -/
theorem runOps_ids_ne (ops : List Op) (s : RepoState) (k : Int) (hkb : keysBelow s)
    (hnw : noWrap s ops = true) (hco : ∀ op ∈ ops, op.isCreate = true)
    (hk : Repo.Exists s k = true) :
    ∀ ev ∈ (runOps s ops).2, ev.2 ≠ k := by
  induction ops generalizing s with
  | nil => simp [runOps]
  | cons op ops ih =>
    obtain ⟨h1, h2⟩ := noWrap_cons s op ops hnw
    intro ev hev
    simp only [runOps, List.mem_append] at hev
    rcases hev with hev | hev
    · intro hc
      have hfresh := applyOp_event_fresh s op hkb ev hev
      rw [hc, hk] at hfresh
      simp at hfresh
    · exact ih (applyOp s op).1 (keysBelow_applyOp s op h1 hkb) h2
        (fun o ho => hco o (List.mem_cons_of_mem op ho))
        (exists_applyOp_create s op k (hco op (List.mem_cons_self op ops)) hk) ev hev

/-- in a delete-free wrap-free run from a keysBelow state, all assigned ids
are pairwise distinct. -/
theorem runOps_pairwise_ne (ops : List Op) (s : RepoState) (hkb : keysBelow s)
    (hnw : noWrap s ops = true) (hco : ∀ op ∈ ops, op.isCreate = true) :
    List.Pairwise (fun a b : Bool × Int => a.2 ≠ b.2) (runOps s ops).2 := by
  induction ops generalizing s with
  | nil => simp [runOps]
  | cons op ops ih =>
    obtain ⟨h1, h2⟩ := noWrap_cons s op ops hnw
    simp only [runOps]
    apply List.pairwise_append.mpr
    refine ⟨pairwise_of_short _ _ (applyOp_events_short s op),
      ih (applyOp s op).1 (keysBelow_applyOp s op h1 hkb) h2
        (fun o ho => hco o (List.mem_cons_of_mem op ho)), ?_⟩
    intro a ha b hb
    exact fun hab => runOps_ids_ne ops (applyOp s op).1 a.2
      (keysBelow_applyOp s op h1 hkb) h2 (fun o ho => hco o (List.mem_cons_of_mem op ho))
      (applyOp_event_enters s op a ha) b hb hab.symm

/-- C1, counterexample. Id 5 is successfully assigned by a Create, its record
is then deleted, and a later Create successfully assigns id 5 again: an id IS
reused after its record is deleted (by a caller-supplied-id Create), so the
claim as stated is false.  The last conjunct shows the int64 wrap also
breaking auto-monotonicity: after Create with caller-supplied id 2^63-1, an
auto Create assigns -2^63, which is smaller than the earlier id. -/
theorem claim_C1_counterexample :
    Repo.Create NewInMemoryTodoRepository ⟨5, "first", "", false⟩ =
        .ok ({ todos := [(5, ⟨5, "first", "", false⟩)], nextID := 6 }, ⟨5, "first", "", false⟩) ∧
      Repo.Delete { todos := [(5, ⟨5, "first", "", false⟩)], nextID := 6 } 5 =
        .ok { todos := [], nextID := 6 } ∧
      Repo.Create { todos := [], nextID := 6 } ⟨5, "second", "", false⟩ =
        .ok ({ todos := [(5, ⟨5, "second", "", false⟩)], nextID := 6 }, ⟨5, "second", "", false⟩) ∧
      (runOps NewInMemoryTodoRepository
          [Op.create ⟨5, "first", "", false⟩, Op.del 5, Op.create ⟨5, "second", "", false⟩]).2 =
        [(false, 5), (false, 5)] ∧
      (runOps NewInMemoryTodoRepository
          [Op.create ⟨9223372036854775807, "big", "", false⟩,
            Op.create ⟨0, "auto", "", false⟩]).2 =
        [(false, 9223372036854775807), (true, -9223372036854775808)] :=
  ⟨rfl, rfl, rfl, rfl, rfl⟩

/-- C1, amended. For every sequence of Create and Delete calls on a fresh
store in which no call overflows the int64 allocator (`noWrap`: Go wraps the
allocator from 2^63-1 to -2^63 at an overflowing bump): every successfully
assigned id is strictly below every later auto-assigned id — hence
auto-assigned ids are monotonically increasing in call order and an
auto-assigned id never repeats any previously assigned id, even after
deletions; and in a delete-free such sequence all successfully assigned ids
(auto or caller-supplied) are pairwise distinct.  A caller-supplied id may
still be reused after its record is deleted, and at an overflowing call both
clauses fail (see the counterexample), so the no-overflow hypothesis is
necessary. -/
theorem claim_C1_amended (ops : List Op)
    (hnw : noWrap NewInMemoryTodoRepository ops = true) :
    List.Pairwise (fun a b : Bool × Int => b.1 = true → a.2 < b.2)
        (runOps NewInMemoryTodoRepository ops).2 ∧
      ((∀ op ∈ ops, op.isCreate = true) →
        List.Pairwise (fun a b : Bool × Int => a.2 ≠ b.2)
          (runOps NewInMemoryTodoRepository ops).2) := by
  have hkb : keysBelow NewInMemoryTodoRepository := by
    intro p hp
    simp [NewInMemoryTodoRepository] at hp
  exact ⟨runOps_pairwise_auto ops NewInMemoryTodoRepository hnw,
    fun hco => runOps_pairwise_ne ops NewInMemoryTodoRepository hkb hnw hco⟩

/-- claim_C1_amended at a concrete delete-free wrap-free sequence (auto,
explicit id 7, auto). -/
theorem claim_C1_witness :
    List.Pairwise (fun a b : Bool × Int => b.1 = true → a.2 < b.2)
        (runOps NewInMemoryTodoRepository
          [Op.create ⟨0, "a", "", false⟩, Op.create ⟨7, "b", "", false⟩,
            Op.create ⟨0, "c", "", false⟩]).2 ∧
      List.Pairwise (fun a b : Bool × Int => a.2 ≠ b.2)
        (runOps NewInMemoryTodoRepository
          [Op.create ⟨0, "a", "", false⟩, Op.create ⟨7, "b", "", false⟩,
            Op.create ⟨0, "c", "", false⟩]).2 :=
  ⟨(claim_C1_amended [Op.create ⟨0, "a", "", false⟩, Op.create ⟨7, "b", "", false⟩,
      Op.create ⟨0, "c", "", false⟩] (by decide)).1,
    (claim_C1_amended [Op.create ⟨0, "a", "", false⟩, Op.create ⟨7, "b", "", false⟩,
      Op.create ⟨0, "c", "", false⟩] (by decide)).2 (by decide)⟩

/-- C5, counterexample. At caller-supplied id 2^63-1 on the fresh store,
Create succeeds but Go's `r.nextID = todo.ID + 1` wraps the allocator to
-2^63, not max(current, id+1) = 2^63: the claimed allocator advance is false
at the int64 boundary. -/
theorem claim_C5_counterexample :
    Repo.Create NewInMemoryTodoRepository ⟨9223372036854775807, "big", "", false⟩ =
        .ok (RepoState.mk [(9223372036854775807, ⟨9223372036854775807, "big", "", false⟩)]
          (-9223372036854775808), ⟨9223372036854775807, "big", "", false⟩) ∧
      (-9223372036854775808 : Int) ≠ max 1 (9223372036854775807 + 1) :=
  ⟨rfl, by decide⟩

/-- C5, amended. For a todo with a caller-supplied (non-zero) id: Create
fails with AlreadyExists when the id is occupied (returning no new state —
the map and allocator are untouched); on a free id whose successor fits
int64 it inserts there and sets the allocator to max(current, id+1) (at
id = 2^63-1 the increment instead wraps to -2^63, see the counterexample);
and afterwards no auto-assigned id of any later wrap-free run of
Create/Delete calls ever equals the caller-supplied id. -/
theorem claim_C5 (s : RepoState) (todo : Todo) (h0 : todo.ID ≠ 0) :
    (∀ t0 : Todo, findKey s.todos todo.ID = some t0 →
      Repo.Create s todo = .error .errTodoAlreadyExists) ∧
      (findKey s.todos todo.ID = none → int64Ok (todo.ID + 1) = true →
        Repo.Create s todo =
          .ok (RepoState.mk (insertKey s.todos todo.ID todo) (max s.nextID (todo.ID + 1)),
            todo) ∧
        (∀ ops : List Op,
          noWrap (RepoState.mk (insertKey s.todos todo.ID todo)
            (max s.nextID (todo.ID + 1))) ops = true →
          ∀ ev ∈ (runOps (RepoState.mk (insertKey s.todos todo.ID todo)
            (max s.nextID (todo.ID + 1))) ops).2,
          ev.1 = true → todo.ID < ev.2)) := by
  constructor
  · intro t0 hf
    unfold Repo.Create
    simp [h0, hf]
  · intro hf hrange
    have hw := wrap64_eq (todo.ID + 1) hrange
    have hmax : (if s.nextID ≤ todo.ID then wrap64 (todo.ID + 1) else s.nextID) =
        max s.nextID (todo.ID + 1) := by
      by_cases hle : s.nextID ≤ todo.ID
      · rw [if_pos hle, hw]
        omega
      · rw [if_neg hle]
        omega
    constructor
    · unfold Repo.Create
      simp only [h0, if_false, hf]
      rw [hmax]
    · intro ops hnw ev hev hauto
      have hge := runOps_auto_ge ops _ hnw ev hev hauto
      have hmx : todo.ID + 1 ≤ max s.nextID (todo.ID + 1) := le_max_right _ _
      simp only at hge
      omega

/-- claim_C5 at concrete inputs: id 100 occupied on one store, free on
another; afterwards one wrap-free auto create assigns 101, not 100. -/
theorem claim_C5_witness :
    Repo.Create { todos := [(100, ⟨100, "x", "", false⟩)], nextID := 3 } ⟨100, "y", "", false⟩ =
        .error .errTodoAlreadyExists ∧
      Repo.Create { todos := [], nextID := 3 } ⟨100, "y", "", false⟩ =
        .ok ({ todos := [(100, ⟨100, "y", "", false⟩)], nextID := 101 }, ⟨100, "y", "", false⟩) ∧
      ∀ ev ∈ (runOps (RepoState.mk (insertKey [] 100 ⟨100, "y", "", false⟩)
          (max 3 (100 + 1))) [Op.create ⟨0, "z", "", false⟩]).2,
        ev.1 = true → (100 : Int) < ev.2 := by
  have h1 := (claim_C5 { todos := [(100, ⟨100, "x", "", false⟩)], nextID := 3 }
    ⟨100, "y", "", false⟩ (by decide)).1 ⟨100, "x", "", false⟩ rfl
  have h2 := (claim_C5 { todos := [], nextID := 3 } ⟨100, "y", "", false⟩ (by decide)).2 rfl
    (by decide)
  refine ⟨h1, ?_, fun ev hev => h2.2 [Op.create ⟨0, "z", "", false⟩] (by decide) ev hev⟩
  have := h2.1
  simpa using this

/-- findKey finding nothing means no pair carries the key. -/
theorem findKey_none_forall (m : List (Int × Todo)) (k : Int)
    (h : findKey m k = none) : ∀ p ∈ m, p.1 ≠ k := by
  induction m with
  | nil => simp
  | cons p rest ih =>
    by_cases h1 : p.1 = k
    · simp [findKey, h1] at h
    · simp only [findKey, h1, if_false] at h
      intro q hq
      rcases List.mem_cons.mp hq with hq | hq
      · rw [hq]
        exact h1
      · exact ih h q hq

/-- eraseKey yields a sublist. -/
theorem eraseKey_sublist (m : List (Int × Todo)) (k : Int) :
    (eraseKey m k).Sublist m := by
  induction m with
  | nil => simp [eraseKey]
  | cons p rest ih =>
    by_cases h1 : p.1 = k
    · simp only [eraseKey, h1, if_true]
      exact ih.cons p
    · simp only [eraseKey, h1, if_false]
      exact ih.cons₂ p

/-- the erased key never occurs among the remaining keys. -/
theorem not_mem_keys_eraseKey (m : List (Int × Todo)) (k : Int) :
    k ∉ (eraseKey m k).map Prod.fst := by
  induction m with
  | nil => simp [eraseKey]
  | cons p rest ih =>
    by_cases h1 : p.1 = k
    · simpa [eraseKey, h1] using ih
    · simp only [eraseKey, h1, if_false, List.map_cons, List.mem_cons]
      intro hc
      rcases hc with hc | hc
      · exact h1 hc.symm
      · exact ih hc

/-- insertKey preserves key uniqueness. -/
theorem nodup_insertKey (m : List (Int × Todo)) (k : Int) (v : Todo)
    (h : (m.map Prod.fst).Nodup) : ((insertKey m k v).map Prod.fst).Nodup := by
  simp only [insertKey, List.map_cons]
  exact List.nodup_cons.mpr ⟨not_mem_keys_eraseKey m k,
    List.Nodup.sublist (List.Sublist.map Prod.fst (eraseKey_sublist m k)) h⟩

/-- C6, counterexample. The fresh store satisfies "all stored ids are
positive" vacuously, yet a single Create with caller-supplied id -1 succeeds
and stores a non-positive id: positivity is not preserved by the storage
operations. -/
theorem claim_C6_counterexample :
    (∀ p ∈ NewInMemoryTodoRepository.todos, 0 < p.1) ∧
      Repo.Create NewInMemoryTodoRepository ⟨-1, "neg", "", false⟩ =
        .ok ({ todos := [(-1, ⟨-1, "neg", "", false⟩)], nextID := 1 }, ⟨-1, "neg", "", false⟩) ∧
      ¬ (∀ p ∈ [((-1 : Int), (⟨-1, "neg", "", false⟩ : Todo))], 0 < p.1) := by
  refine ⟨by simp [NewInMemoryTodoRepository], rfl, ?_⟩
  intro h
  have := h (-1, ⟨-1, "neg", "", false⟩) (by simp)
  simp at this

/-- C6, amended. The invariant on stored records that the storage operations
actually preserve: every stored id is non-zero (not necessarily positive,
since Create accepts negative caller-supplied ids), unique within the store,
and equal to the id field of its record.  Update and Delete preserve it
unconditionally; Create preserves it whenever the current allocator value is
non-zero (auto-assignment stores the allocator value itself, and the
allocator can reach 0 only by wrapping past the int64 boundary).  The fresh
store satisfies the invariant. -/
theorem claim_C6_amended (s : RepoState) (hinv : StoreInv s) :
    StoreInv NewInMemoryTodoRepository ∧
      (∀ (t : Todo) (s2 : RepoState) (st : Todo), s.nextID ≠ 0 →
        Repo.Create s t = .ok (s2, st) → StoreInv s2) ∧
      (∀ (t : Todo) (s2 : RepoState), Repo.Update s t = .ok s2 → StoreInv s2) ∧
      (∀ (id : Int) (s2 : RepoState), Repo.Delete s id = .ok s2 → StoreInv s2) := by
  obtain ⟨hids, hnd⟩ := hinv
  refine ⟨⟨by simp [NewInMemoryTodoRepository], by simp [NewInMemoryTodoRepository]⟩,
    ?_, ?_, ?_⟩
  · intro t s2 st hnz h
    unfold Repo.Create at h
    by_cases h0 : t.ID = 0
    · simp only [h0, if_true, Except.ok.injEq, Prod.mk.injEq] at h
      obtain ⟨hs, ht⟩ := h
      subst hs
      refine ⟨?_, nodup_insertKey _ _ _ hnd⟩
      intro p hp
      rcases mem_insertKey _ _ _ _ hp with hp | hp
      · rw [hp]
        exact ⟨hnz, rfl⟩
      · exact hids p hp
    · simp only [h0, if_false] at h
      cases hf : findKey s.todos t.ID with
      | some v => rw [hf] at h; exact absurd h (by simp)
      | none =>
        rw [hf] at h
        simp only [Except.ok.injEq, Prod.mk.injEq] at h
        obtain ⟨hs, ht⟩ := h
        subst hs
        refine ⟨?_, nodup_insertKey _ _ _ hnd⟩
        intro p hp
        rcases mem_insertKey _ _ _ _ hp with hp | hp
        · rw [hp]
          exact ⟨h0, rfl⟩
        · exact hids p hp
  · intro t s2 h
    unfold Repo.Update at h
    cases hf : findKey s.todos t.ID with
    | none => rw [hf] at h; exact absurd h (by simp)
    | some v =>
      rw [hf] at h
      simp only [Except.ok.injEq] at h
      subst h
      refine ⟨?_, nodup_insertKey _ _ _ hnd⟩
      intro p hp
      rcases mem_insertKey _ _ _ _ hp with hp | hp
      · rw [hp]
        refine ⟨?_, rfl⟩
        exact (hids _ (findKey_eq_some_mem s.todos t.ID v hf)).1
      · exact hids p hp
  · intro id s2 h
    obtain ⟨hn, ht⟩ := delete_meta s id s2 h
    refine ⟨?_, ?_⟩
    · intro p hp
      rw [ht] at hp
      exact hids p (mem_eraseKey _ _ _ hp)
    · rw [ht]
      exact List.Nodup.sublist (List.Sublist.map Prod.fst (eraseKey_sublist _ _)) hnd

/-- claim_C6_amended at concrete inputs: from a one-element store satisfying
the invariant (allocator 3, non-zero), one create, one update and one delete
each preserve it. -/
theorem claim_C6_witness :
    StoreInv { todos := [((2 : Int), (⟨2, "a", "", false⟩ : Todo))], nextID := 3 } ∧
      StoreInv { todos := [(3, ⟨3, "b", "", false⟩), (2, ⟨2, "a", "", false⟩)], nextID := 4 } ∧
      StoreInv { todos := [(2, ⟨2, "c", "", true⟩)], nextID := 3 } ∧
      StoreInv { todos := [], nextID := 3 } := by
  have hinv : StoreInv { todos := [((2 : Int), (⟨2, "a", "", false⟩ : Todo))], nextID := 3 } := by
    refine ⟨?_, by simp⟩
    intro p hp
    simp only [List.mem_singleton] at hp
    subst hp
    exact ⟨by norm_num, rfl⟩
  have hc := (claim_C6_amended _ hinv).2.1 ⟨0, "b", "", false⟩
    { todos := [(3, ⟨3, "b", "", false⟩), (2, ⟨2, "a", "", false⟩)], nextID := 4 }
    ⟨3, "b", "", false⟩ (by decide) rfl
  have hu := (claim_C6_amended _ hinv).2.2.1 ⟨2, "c", "", true⟩
    { todos := [(2, ⟨2, "c", "", true⟩)], nextID := 3 } rfl
  have hd := (claim_C6_amended _ hinv).2.2.2 2 { todos := [], nextID := 3 } rfl
  exact ⟨hinv, hc, hu, hd⟩

/-- C8. UpdateTodo validates first (an empty title fails even for an absent
id), then checks existence (NotFound when absent), then overwrites the
payload id with the path id before storing: the result is stored at the path
id, whose record carries the path id, and the payload's own id field is
irrelevant to the outcome. -/
theorem claim_C8 (s : RepoState) (id : Int) (todo : Todo) :
    (todo.Title = "" →
      UseCase.UpdateTodo s id todo = .error (.errNew "title cannot be empty")) ∧
      (todo.Title ≠ "" → Repo.Exists s id = false →
        UseCase.UpdateTodo s id todo = .error .errTodoNotFound) ∧
      (todo.Title ≠ "" → Repo.Exists s id = true →
        UseCase.UpdateTodo s id todo =
          .ok (RepoState.mk (insertKey s.todos id { todo with ID := id }) s.nextID,
            { todo with ID := id }) ∧
        findKey (insertKey s.todos id { todo with ID := id }) id =
          some { todo with ID := id }) ∧
      (∀ j : Int, UseCase.UpdateTodo s id { todo with ID := j } =
        UseCase.UpdateTodo s id todo) := by
  refine ⟨?_, ?_, ?_, fun j => rfl⟩
  · intro h
    simp [UseCase.UpdateTodo, Todo.Validate, h]
  · intro ht hex
    simp [UseCase.UpdateTodo, Todo.Validate, ht, hex]
  · intro ht hex
    have hfind : ∃ v, findKey s.todos id = some v := by
      unfold Repo.Exists at hex
      exact Option.isSome_iff_exists.mp hex
    obtain ⟨v, hv⟩ := hfind
    constructor
    · unfold UseCase.UpdateTodo
      simp only [Todo.Validate, ht, if_false]
      rw [if_pos hex]
      unfold Repo.Update
      simp only
      rw [hv]
    · exact findKey_insertKey_self _ _ _

/-- claim_C8 at concrete inputs. -/
theorem claim_C8_witness :
    UseCase.UpdateTodo { todos := [((2 : Int), (⟨2, "a", "", false⟩ : Todo))], nextID := 3 } 2
        ⟨99, "new", "d", true⟩ =
        .ok (RepoState.mk (insertKey [(2, ⟨2, "a", "", false⟩)] 2 ⟨2, "new", "d", true⟩) 3,
          ⟨2, "new", "d", true⟩) ∧
      findKey (insertKey [((2 : Int), (⟨2, "a", "", false⟩ : Todo))] 2 ⟨2, "new", "d", true⟩) 2 =
        some ⟨2, "new", "d", true⟩ ∧
      UseCase.UpdateTodo { todos := [((2 : Int), (⟨2, "a", "", false⟩ : Todo))], nextID := 3 } 2
        ⟨-7, "new", "d", true⟩ =
        UseCase.UpdateTodo { todos := [(2, ⟨2, "a", "", false⟩)], nextID := 3 } 2
          ⟨99, "new", "d", true⟩ := by
  have h := (claim_C8 { todos := [(2, ⟨2, "a", "", false⟩)], nextID := 3 } 2
    ⟨99, "new", "d", true⟩).2.2.1 (by decide) rfl
  refine ⟨h.1, h.2, ?_⟩
  have h4 := (claim_C8 { todos := [(2, ⟨2, "a", "", false⟩)], nextID := 3 } 2
    ⟨99, "new", "d", true⟩).2.2.2 (-7)
  exact h4

/-- C9. On an empty store GetAll yields a non-nil empty slice, the handler
answers 200 with that slice, and the body encodes as the empty JSON array
`[]` — whereas only a nil slice (which GetAll never builds) would encode as
`null`. -/
theorem claim_C9 (s : RepoState) (h : s.todos = []) :
    Repo.GetAll s = .ok { isNil := false, elems := [] } ∧
      Handler.handleGetAllTodos s = (200, .sliceJson { isNil := false, elems := [] }, s) ∧
      renderBody (.sliceJson { isNil := false, elems := [] }) = "[]" ∧
      renderBody (.sliceJson { isNil := true, elems := [] }) = "null" := by
  have h1 : Repo.GetAll s = .ok { isNil := false, elems := [] } := by
    unfold Repo.GetAll
    rw [h]
    rfl
  refine ⟨h1, ?_, rfl, rfl⟩
  unfold Handler.handleGetAllTodos UseCase.GetAllTodos
  rw [h1]

/-- claim_C9 at the fresh repository. -/
theorem claim_C9_witness :
    Repo.GetAll NewInMemoryTodoRepository = .ok { isNil := false, elems := [] } ∧
      Handler.handleGetAllTodos NewInMemoryTodoRepository =
        (200, .sliceJson { isNil := false, elems := [] }, NewInMemoryTodoRepository) ∧
      renderBody (.sliceJson { isNil := false, elems := [] }) = "[]" ∧
      renderBody (.sliceJson { isNil := true, elems := [] }) = "null" :=
  claim_C9 NewInMemoryTodoRepository rfl

/-- C7. The handlers map outcomes to status codes exactly as specified:
unsupported method 405 on both routes, missing id 404 on get/update/delete,
occupied id 409 on create, undecodable JSON body 400 (before validation, so
regardless of store or payload content), empty title 400, and a path whose
id segment does not parse as an integer 400 (before any method dispatch).
In every error case the returned state is the input state. -/
theorem claim_C7 :
    (∀ (s : RepoState) (m : String) (b : Option Todo), m ≠ "POST" → m ≠ "GET" →
      Handler.handleTodos s m b = (405, .errJson "Method not allowed", s)) ∧
      (∀ (s : RepoState) (m p : String) (b : Option Todo) (n : Int),
        extractIDFromPath p = some n → m ≠ "GET" → m ≠ "PUT" → m ≠ "DELETE" →
        Handler.handleTodoByID s m p b = (405, .errJson "Method not allowed", s)) ∧
      (∀ (s : RepoState) (m p : String) (b : Option Todo), extractIDFromPath p = none →
        Handler.handleTodoByID s m p b = (400, .errJson "Invalid todo ID", s)) ∧
      (∀ (s : RepoState) (id : Int), findKey s.todos id = none →
        Handler.handleGetTodoByID s id = (404, .errJson "Todo not found", s) ∧
          Handler.handleDeleteTodo s id = (404, .errJson "Todo not found", s) ∧
          (∀ t : Todo, t.Title ≠ "" →
            Handler.handleUpdateTodo s id (some t) = (404, .errJson "Todo not found", s))) ∧
      (∀ (s : RepoState) (t v : Todo), t.ID ≠ 0 → t.Title ≠ "" →
        findKey s.todos t.ID = some v →
        Handler.handleCreateTodo s (some t) =
          (409, .errJson "todo with this ID already exists", s)) ∧
      (∀ (s : RepoState) (id : Int),
        Handler.handleCreateTodo s none = (400, .errJson "Invalid request body", s) ∧
          Handler.handleUpdateTodo s id none = (400, .errJson "Invalid request body", s)) ∧
      (∀ (s : RepoState) (id : Int) (t : Todo), t.Title = "" →
        Handler.handleCreateTodo s (some t) = (400, .errJson "title cannot be empty", s) ∧
          Handler.handleUpdateTodo s id (some t) =
            (400, .errJson "title cannot be empty", s)) := by
  refine ⟨?_, ?_, ?_, ?_, ?_, ?_, ?_⟩
  · intro s m b h1 h2
    simp [Handler.handleTodos, h1, h2]
  · intro s m p b n hex h1 h2 h3
    unfold Handler.handleTodoByID
    rw [hex]
    simp [h1, h2, h3]
  · intro s m p b hex
    unfold Handler.handleTodoByID
    rw [hex]
  · intro s id hf
    have hget : UseCase.GetTodoByID s id = .error .errTodoNotFound := by
      simp [UseCase.GetTodoByID, Repo.GetByID, hf]
    have hdel : UseCase.DeleteTodo s id = .error .errTodoNotFound := by
      simp [UseCase.DeleteTodo, Repo.Delete, hf]
    refine ⟨?_, ?_, ?_⟩
    · simp [Handler.handleGetTodoByID, hget]
    · simp [Handler.handleDeleteTodo, hdel]
    · intro t ht
      have hup : UseCase.UpdateTodo s id t = .error .errTodoNotFound := by
        simp [UseCase.UpdateTodo, Todo.Validate, ht, Repo.Exists, hf]
      simp [Handler.handleUpdateTodo, hup]
  · intro s t v h0 ht hf
    have hcr : UseCase.CreateTodo s t = .error .errTodoAlreadyExists := by
      unfold UseCase.CreateTodo Repo.Create
      simp [Todo.Validate, ht, h0, hf]
    simp [Handler.handleCreateTodo, hcr, GoError.message]
  · intro s id
    exact ⟨rfl, rfl⟩
  · intro s id t ht
    have hv : Todo.Validate t = some (.errNew "title cannot be empty") := by
      simp [Todo.Validate, ht]
    have h1 : UseCase.CreateTodo s t = .error (.errNew "title cannot be empty") := by
      simp [UseCase.CreateTodo, hv]
    have h2 : UseCase.UpdateTodo s id t = .error (.errNew "title cannot be empty") := by
      simp [UseCase.UpdateTodo, hv]
    exact ⟨by simp [Handler.handleCreateTodo, h1, GoError.message],
      by simp [Handler.handleUpdateTodo, h2, GoError.message]⟩

/-- claim_C7 at concrete inputs: PATCH on both routes, a non-integer path id,
a missing id 9999, a duplicate create at id 100, an undecodable body, and an
empty title. -/
theorem claim_C7_witness :
    Handler.handleTodos NewInMemoryTodoRepository "PATCH" none =
        (405, .errJson "Method not allowed", NewInMemoryTodoRepository) ∧
      Handler.handleTodoByID NewInMemoryTodoRepository "PATCH" "/todos/3" none =
        (405, .errJson "Method not allowed", NewInMemoryTodoRepository) ∧
      Handler.handleTodoByID NewInMemoryTodoRepository "GET" "/todos/abc" none =
        (400, .errJson "Invalid todo ID", NewInMemoryTodoRepository) ∧
      Handler.handleGetTodoByID NewInMemoryTodoRepository 9999 =
        (404, .errJson "Todo not found", NewInMemoryTodoRepository) ∧
      Handler.handleCreateTodo { todos := [((100 : Int), (⟨100, "x", "", false⟩ : Todo))], nextID := 3 }
          (some ⟨100, "y", "", false⟩) =
        (409, .errJson "todo with this ID already exists",
          { todos := [(100, ⟨100, "x", "", false⟩)], nextID := 3 }) ∧
      Handler.handleCreateTodo NewInMemoryTodoRepository none =
        (400, .errJson "Invalid request body", NewInMemoryTodoRepository) ∧
      Handler.handleUpdateTodo NewInMemoryTodoRepository 1 (some ⟨0, "", "", false⟩) =
        (400, .errJson "title cannot be empty", NewInMemoryTodoRepository) := by
  refine ⟨claim_C7.1 _ "PATCH" none (by decide) (by decide),
    claim_C7.2.1 _ "PATCH" "/todos/3" none 3 rfl (by decide) (by decide) (by decide),
    claim_C7.2.2.1 _ "GET" "/todos/abc" none rfl,
    (claim_C7.2.2.2.1 NewInMemoryTodoRepository 9999 rfl).1,
    claim_C7.2.2.2.2.1 _ ⟨100, "y", "", false⟩ ⟨100, "x", "", false⟩
      (by decide) (by decide) rfl,
    (claim_C7.2.2.2.2.2.1 _ 1).1,
    ((claim_C7.2.2.2.2.2.2 _ 1 ⟨0, "", "", false⟩) rfl).2⟩

/-- dropWhile skips a whole prefix it accepts. -/
theorem dropWhile_append_of_all {α : Type} (p : α → Bool) (xs ys : List α)
    (h : ∀ x ∈ xs, p x = true) :
    List.dropWhile p (xs ++ ys) = List.dropWhile p ys := by
  induction xs with
  | nil => rfl
  | cons a l ih =>
    rw [List.cons_append, List.dropWhile_cons_of_pos (h a (List.mem_cons_self a l))]
    exact ih (fun x hx => h x (List.mem_cons_of_mem a hx))

/-- dropWhile that stops inside the first list ignores the second. -/
theorem dropWhile_append_of_ne_nil {α : Type} (p : α → Bool) (xs ys : List α)
    (h : List.dropWhile p xs ≠ []) :
    List.dropWhile p (xs ++ ys) = List.dropWhile p xs ++ ys := by
  induction xs with
  | nil => exact absurd rfl h
  | cons a l ih =>
    by_cases hp : p a = true
    · rw [List.cons_append, List.dropWhile_cons_of_pos hp, List.dropWhile_cons_of_pos hp]
      rw [List.dropWhile_cons_of_pos hp] at h
      exact ih h
    · have hp2 : p a = false := by
        cases hpa : p a
        · rfl
        · exact absurd hpa hp
      rw [List.cons_append, List.dropWhile_cons_of_neg (by rw [hp2]; simp),
        List.dropWhile_cons_of_neg (by rw [hp2]; simp), List.cons_append]

/-- a rejected element somewhere in the list keeps dropWhile from emptying
it. -/
theorem dropWhile_ne_nil_of_exists {α : Type} (p : α → Bool) (xs : List α)
    (h : ∃ x ∈ xs, p x = false) : List.dropWhile p xs ≠ [] := by
  intro heq
  rw [List.dropWhile_eq_nil_iff] at heq
  obtain ⟨x, hx, hfalse⟩ := h
  rw [heq x hx] at hfalse
  exact Bool.noConfusion hfalse

/-- splitChar never produces the empty list of segments. -/
theorem splitChar_ne_nil (sep : Char) (l : List Char) : splitChar sep l ≠ [] := by
  induction l with
  | nil => simp [splitChar]
  | cons c rest ih =>
    unfold splitChar
    cases h : splitChar sep rest with
    | nil => simp
    | cons seg segs => by_cases hc : c = sep <;> simp [hc]

/-- a list without the separator is a single segment. -/
theorem splitChar_noslash (a : List Char) (h : ∀ c ∈ a, c ≠ '/') :
    splitChar '/' a = [a] := by
  induction a with
  | nil => rfl
  | cons c rest ih =>
    have hc : c ≠ '/' := h c (List.mem_cons_self c rest)
    unfold splitChar
    rw [ih (fun x hx => h x (List.mem_cons_of_mem c hx))]
    simp [hc]

/-- splitting a separator-free prefix followed by a separator peels off the
prefix as the first segment. -/
theorem splitChar_append (a b : List Char) (h : ∀ c ∈ a, c ≠ '/') :
    splitChar '/' (a ++ '/' :: b) = a :: splitChar '/' b := by
  induction a with
  | nil =>
    show splitChar '/' ('/' :: b) = [] :: splitChar '/' b
    cases hb : splitChar '/' b with
    | nil => exact absurd hb (splitChar_ne_nil '/' b)
    | cons seg segs =>
      simp only [splitChar, hb]
      simp
  | cons c rest ih =>
    have hc : c ≠ '/' := h c (List.mem_cons_self c rest)
    have ih2 := ih (fun x hx => h x (List.mem_cons_of_mem c hx))
    show splitChar '/' (c :: (rest ++ '/' :: b)) = (c :: rest) :: splitChar '/' b
    simp only [splitChar, ih2]
    simp [hc]

/-- a digit is not a slash. -/
theorem digit_ne_slash (c : Char) (h : c.isDigit = true) : c ≠ '/' := by
  intro hc
  rw [hc] at h
  exact absurd h (by decide)

/-- a successful digitsLoop saw only digits. -/
theorem digitsLoop_all_digits (cs : List Char) (acc v : Int)
    (h : digitsLoop acc cs = some v) : ∀ c ∈ cs, c.isDigit = true := by
  induction cs generalizing acc with
  | nil => simp
  | cons c rest ih =>
    by_cases hd : c.isDigit
    · intro x hx
      rcases List.mem_cons.mp hx with hx | hx
      · rw [hx]
        exact hd
      · exact ih (acc * 10 + ((c.toNat : Int) - 48)) (by simpa [digitsLoop, hd] using h) x hx
    · simp [digitsLoop, hd] at h

/-- a successful digitsVal is a non-empty all-digit string. -/
theorem digitsVal_all (cs : List Char) (v : Int) (h : digitsVal cs = some v) :
    cs ≠ [] ∧ ∀ x ∈ cs, x.isDigit = true := by
  cases cs with
  | nil => simp [digitsVal] at h
  | cons c rest =>
    refine ⟨by simp, ?_⟩
    exact digitsLoop_all_digits (c :: rest) 0 v (by simpa [digitsVal] using h)

/-- whatever goAtoi accepts is non-empty and contains no slash (an optional
sign, then digits). -/
theorem goAtoi_ne_slash (cs : List Char) (n : Int) (h : goAtoi cs = some n) :
    cs ≠ [] ∧ ∀ x ∈ cs, x ≠ '/' := by
  cases cs with
  | nil => simp [goAtoi] at h
  | cons c rest =>
    refine ⟨by simp, ?_⟩
    simp only [goAtoi] at h
    by_cases hp : c = '+'
    · rw [if_pos hp] at h
      cases hv : digitsVal rest with
      | none => rw [hv] at h; simp at h
      | some v =>
        intro x hx
        rcases List.mem_cons.mp hx with hx | hx
        · rw [hx, hp]
          decide
        · exact digit_ne_slash x ((digitsVal_all rest v hv).2 x hx)
    · rw [if_neg hp] at h
      by_cases hm : c = '-'
      · rw [if_pos hm] at h
        cases hv : digitsVal rest with
        | none => rw [hv] at h; simp at h
        | some v =>
          intro x hx
          rcases List.mem_cons.mp hx with hx | hx
          · rw [hx, hm]
            decide
          · exact digit_ne_slash x ((digitsVal_all rest v hv).2 x hx)
      · rw [if_neg hm] at h
        cases hv : digitsVal (c :: rest) with
        | none => rw [hv] at h; simp at h
        | some v =>
          intro x hx
          exact digit_ne_slash x ((digitsVal_all (c :: rest) v hv).2 x hx)

/-- after trimming slashes and splitting, the item path `/T/digits(tail)` —
with `T` and `digits` slash-free and non-empty and a tail that is empty or
starts with a slash — has at least two segments, the second being exactly
the digits block: the parser uses only the second segment and ignores
everything after it. -/
theorem secondSegment (T digits tail2 : List Char)
    (hT : ∀ c ∈ T, c ≠ '/') (hTne : T ≠ [])
    (hd : ∀ c ∈ digits, c ≠ '/') (hdne : digits ≠ [])
    (htail : tail2 = [] ∨ ∃ rest, tail2 = '/' :: rest) :
    2 ≤ (splitChar '/' (trimChar ('/' :: (T ++ '/' :: (digits ++ tail2))) '/')).length ∧
      (splitChar '/' (trimChar ('/' :: (T ++ '/' :: (digits ++ tail2))) '/')).get? 1 =
        some digits := by
  obtain ⟨t0, T', hT0⟩ : ∃ t0 T', T = t0 :: T' := by
    cases T with
    | nil => exact absurd rfl hTne
    | cons a b => exact ⟨a, b, rfl⟩
  obtain ⟨d0, dr, hd0⟩ : ∃ d0 dr, digits.reverse = d0 :: dr := by
    cases hrev : digits.reverse with
    | nil => exact absurd (List.reverse_eq_nil_iff.mp hrev) hdne
    | cons a b => exact ⟨a, b, rfl⟩
  have ht0 : t0 ≠ '/' := by
    rw [hT0] at hT
    exact hT t0 (List.mem_cons_self _ _)
  have hd0s : d0 ≠ '/' := by
    have hmem : d0 ∈ digits.reverse := by
      rw [hd0]
      exact List.mem_cons_self _ _
    exact hd d0 (List.mem_reverse.mp hmem)
  have hleft : List.dropWhile (fun x => decide (x = '/'))
      ('/' :: (T ++ '/' :: (digits ++ tail2))) = T ++ '/' :: (digits ++ tail2) := by
    rw [List.dropWhile_cons_of_pos (by decide), hT0, List.cons_append,
      List.dropWhile_cons_of_neg (by simp [ht0]), ← List.cons_append, ← hT0]
  have hZ2 : List.dropWhile (fun x => decide (x = '/'))
      (digits.reverse ++ '/' :: T.reverse) = digits.reverse ++ '/' :: T.reverse := by
    rw [hd0, List.cons_append, List.dropWhile_cons_of_neg (by simp [hd0s]), ← List.cons_append,
      ← hd0]
  have hZ2rev : (digits.reverse ++ '/' :: T.reverse).reverse = T ++ '/' :: digits := by
    simp [List.reverse_append]
  have hfinal : splitChar '/' (T ++ '/' :: digits) = [T, digits] := by
    rw [splitChar_append T digits hT, splitChar_noslash digits hd]
  rcases htail with htail | ⟨rest, htail⟩
  · subst htail
    have htrim : trimChar ('/' :: (T ++ '/' :: (digits ++ []))) '/' = T ++ '/' :: digits := by
      unfold trimChar
      rw [hleft]
      rw [show (T ++ '/' :: (digits ++ [])).reverse = digits.reverse ++ '/' :: T.reverse by
        simp [List.reverse_append]]
      rw [hZ2, hZ2rev]
    rw [htrim, hfinal]
    simp
  · subst htail
    have hrevall : (T ++ '/' :: (digits ++ '/' :: rest)).reverse =
        rest.reverse ++ '/' :: (digits.reverse ++ '/' :: T.reverse) := by
      simp [List.reverse_append]
    by_cases hall : ∀ x ∈ rest, x = '/'
    · have htrim : trimChar ('/' :: (T ++ '/' :: (digits ++ '/' :: rest))) '/' =
          T ++ '/' :: digits := by
        unfold trimChar
        rw [hleft, hrevall,
          dropWhile_append_of_all (fun x => decide (x = '/')) rest.reverse _
            (fun x hx => by simp [hall x (List.mem_reverse.mp hx)]),
          List.dropWhile_cons_of_pos (by decide), hZ2, hZ2rev]
      rw [htrim, hfinal]
      simp
    · push_neg at hall
      obtain ⟨w, hw, hwne⟩ := hall
      have hWne : List.dropWhile (fun x => decide (x = '/')) rest.reverse ≠ [] := by
        apply dropWhile_ne_nil_of_exists
        exact ⟨w, List.mem_reverse.mpr hw, by simp [hwne]⟩
      have htrim : trimChar ('/' :: (T ++ '/' :: (digits ++ '/' :: rest))) '/' =
          T ++ '/' :: (digits ++ '/' ::
            (List.dropWhile (fun x => decide (x = '/')) rest.reverse).reverse) := by
        unfold trimChar
        rw [hleft, hrevall,
          dropWhile_append_of_ne_nil (fun x => decide (x = '/')) rest.reverse _ hWne]
        simp [List.reverse_append]
      rw [htrim, splitChar_append T _ hT, splitChar_append digits _ hd]
      simp

/-- extractIDchars on `/T/digits(tail)` parses the digits block with Atoi,
for any slash-led or empty tail. -/
theorem extractIDchars_item (T digits tail2 : List Char) (n : Int)
    (hT : ∀ c ∈ T, c ≠ '/') (hTne : T ≠ [])
    (htail : tail2 = [] ∨ ∃ rest, tail2 = '/' :: rest)
    (hn : goAtoi digits = some n) :
    extractIDchars ('/' :: (T ++ '/' :: (digits ++ tail2))) = some n := by
  obtain ⟨hdne, hd⟩ := goAtoi_ne_slash digits n hn
  obtain ⟨hlen, hget⟩ := secondSegment T digits tail2 hT hTne hd hdne htail
  unfold extractIDchars
  simp only
  rw [if_neg (Nat.not_lt.mpr hlen), hget]
  exact hn

/-- C10. The item-route id parser uses only the second path segment: for any
string the Atoi model accepts (an optional sign then digits, in int64 range —
including "0" and negative numbers) and any trailing segments, the request
path `/todos/<digits>/<anything>` (or without trailing part) parses to that
integer, passes the 400 gate, and a GET is dispatched to the operation layer
as GetTodoByID of that id — which then answers 404 when the id is absent. -/
theorem claim_C10 :
    (∀ (digits : List Char) (n : Int), goAtoi digits = some n →
      extractIDFromPath (String.mk ('/' :: 't' :: 'o' :: 'd' :: 'o' :: 's' :: '/' :: digits)) =
        some n) ∧
      (∀ (digits rest : List Char) (n : Int), goAtoi digits = some n →
        extractIDFromPath (String.mk ('/' :: 't' :: 'o' :: 'd' :: 'o' :: 's' :: '/' ::
          (digits ++ '/' :: rest))) = some n) ∧
      (∀ (s : RepoState) (digits rest : List Char) (n : Int) (b : Option Todo),
        goAtoi digits = some n →
        Handler.handleTodoByID s "GET" (String.mk ('/' :: 't' :: 'o' :: 'd' :: 'o' :: 's' :: '/' ::
          (digits ++ '/' :: rest))) b = Handler.handleGetTodoByID s n) ∧
      (∀ (s : RepoState) (digits rest : List Char) (n : Int) (b : Option Todo),
        goAtoi digits = some n → findKey s.todos n = none →
        Handler.handleTodoByID s "GET" (String.mk ('/' :: 't' :: 'o' :: 'd' :: 'o' :: 's' :: '/' ::
          (digits ++ '/' :: rest))) b = (404, .errJson "Todo not found", s)) := by
  have hT : ∀ c ∈ ['t', 'o', 'd', 'o', 's'], c ≠ '/' := by decide
  have hTne : (['t', 'o', 'd', 'o', 's'] : List Char) ≠ [] := by decide
  have hplain : ∀ (digits : List Char) (n : Int), goAtoi digits = some n →
      extractIDFromPath (String.mk ('/' :: 't' :: 'o' :: 'd' :: 'o' :: 's' :: '/' :: digits)) =
        some n := by
    intro digits n hn
    show extractIDchars ('/' :: 't' :: 'o' :: 'd' :: 'o' :: 's' :: '/' :: digits) = some n
    have := extractIDchars_item ['t', 'o', 'd', 'o', 's'] digits [] n hT hTne (Or.inl rfl) hn
    simpa using this
  have htrail : ∀ (digits rest : List Char) (n : Int), goAtoi digits = some n →
      extractIDFromPath (String.mk ('/' :: 't' :: 'o' :: 'd' :: 'o' :: 's' :: '/' ::
        (digits ++ '/' :: rest))) = some n := by
    intro digits rest n hn
    show extractIDchars ('/' :: 't' :: 'o' :: 'd' :: 'o' :: 's' :: '/' ::
      (digits ++ '/' :: rest)) = some n
    exact extractIDchars_item ['t', 'o', 'd', 'o', 's'] digits ('/' :: rest) n hT hTne
      (Or.inr ⟨rest, rfl⟩) hn
  have hdispatch : ∀ (s : RepoState) (digits rest : List Char) (n : Int) (b : Option Todo),
      goAtoi digits = some n →
      Handler.handleTodoByID s "GET" (String.mk ('/' :: 't' :: 'o' :: 'd' :: 'o' :: 's' :: '/' ::
        (digits ++ '/' :: rest))) b = Handler.handleGetTodoByID s n := by
    intro s digits rest n b hn
    unfold Handler.handleTodoByID
    rw [htrail digits rest n hn]
    simp
  refine ⟨hplain, htrail, hdispatch, ?_⟩
  intro s digits rest n b hn hf
  rw [hdispatch s digits rest n b hn]
  have hget : UseCase.GetTodoByID s n = .error .errTodoNotFound := by
    simp [UseCase.GetTodoByID, Repo.GetByID, hf]
  simp [Handler.handleGetTodoByID, hget]

/-- claim_C10 at concrete inputs: an item path carrying id -3 with a trailing
segment, an item path carrying id 0, and a GET of the former against the
fresh store. -/
theorem claim_C10_witness :
    extractIDFromPath "/todos/-3/x" = some (-3) ∧
      extractIDFromPath "/todos/0" = some 0 ∧
      Handler.handleTodoByID NewInMemoryTodoRepository "GET" "/todos/-3/x" none =
        (404, .errJson "Todo not found", NewInMemoryTodoRepository) := by
  refine ⟨?_, ?_, ?_⟩
  · exact claim_C10.2.1 ['-', '3'] ['x'] (-3) (by decide)
  · exact claim_C10.1 ['0'] 0 (by decide)
  · exact claim_C10.2.2.2 NewInMemoryTodoRepository ['-', '3'] ['x'] (-3) none
      (by decide) rfl
